import Mathlib

/-!
# Verification of the execution-witness-sentry core

A shallow embedding of the proof-relaying core of the `zkboost`
execution-witness sentry (`crates/execution-witness-sentry`), together with
theorems settling the specification claims about it.

Modelling conventions:
* 32-byte hashes (`B256`, `Hash256`), `ElProofType` enum values, and the
  engine's opaque `ProofGenId` strings are modelled as `Nat`; only equality
  and map-key behaviour of these types is ever used by the code under study.
* Rust `HashMap`s are modelled as association lists with `HashMap::insert`
  (replace) / `HashMap::remove` semantics.
* Rust `HashSet<T>` inside `Target<T>` is modelled as a `Finset`.
* `Instant` timestamps are modelled as `Nat` seconds; `elapsed()` at time
  `now` is the truncated subtraction `now - created_at`.
-/

namespace Sentry

/-- Lookup in an association list, mirroring `HashMap::get`. -/
def alookup [DecidableEq κ] (k : κ) : List (κ × β) → Option β
  | [] => none
  | (k1, v) :: t => if k1 = k then some v else alookup k t

/-- Removal from an association list, mirroring `HashMap::remove` (all claims
only need the resulting map, not the returned value). -/
def aremove [DecidableEq κ] (k : κ) : List (κ × β) → List (κ × β)
  | [] => []
  | e :: t => if e.1 = k then aremove k t else e :: aremove k t

/-- Insertion into an association list, mirroring `HashMap::insert`
(replaces any existing entry for the key). -/
def ainsert [DecidableEq κ] (k : κ) (v : β) (m : List (κ × β)) : List (κ × β) :=
  (k, v) :: aremove k m

theorem alookup_ainsert [DecidableEq κ] (k : κ) (v : β) (m : List (κ × β)) :
    alookup k (ainsert k v m) = some v := by
  simp [ainsert, alookup]

theorem alookup_aremove [DecidableEq κ] (k : κ) (m : List (κ × β)) :
    alookup k (aremove k m) = none := by
  induction m with
  | nil => rfl
  | cons e t ih =>
    by_cases h : e.1 = k
    · simpa [aremove, h] using ih
    · simpa [aremove, alookup, h] using ih

theorem alookup_aremove_ne [DecidableEq κ] (k k1 : κ) (m : List (κ × β))
    (h : k1 ≠ k) : alookup k1 (aremove k m) = alookup k1 m := by
  induction m with
  | nil => rfl
  | cons e t ih =>
    by_cases he : e.1 = k
    · simp [aremove, he, alookup, ih, h.symm]
    · by_cases he1 : e.1 = k1
      · simp [aremove, he, alookup, he1, h]
      · simp [aremove, he, alookup, he1, ih]

theorem alookup_ainsert_ne [DecidableEq κ] (k k1 : κ) (v : β) (m : List (κ × β))
    (h : k1 ≠ k) : alookup k1 (ainsert k v m) = alookup k1 m := by
  simp only [ainsert, alookup]
  rw [if_neg (fun hh : k = k1 => h hh.symm)]
  exact alookup_aremove_ne k k1 m h

/-- Represents a target selection that can be either all items or a specific
subset. Mirrors `Target<T>` from
`crates/execution-witness-sentry/src/service.rs`; the Rust `HashSet<T>` is
modelled as a `Finset`. -/
inductive Target (α : Type) [DecidableEq α] where
  | all : Target α
  | specific : Finset α → Target α

instance {α : Type} [DecidableEq α] : DecidableEq (Target α) := fun a b => by
  cases a <;> cases b
  case all.all => exact isTrue rfl
  case all.specific s => exact isFalse (by intro h; cases h)
  case specific.all s => exact isFalse (by intro h; cases h)
  case specific.specific s t =>
    by_cases h : s = t
    · exact isTrue (by rw [h])
    · exact isFalse (by intro hc; cases hc; exact h rfl)

namespace Target

variable {α : Type} [DecidableEq α]

/-- `Target::contains`: `All` contains everything; `Specific` tests set
membership. -/
def contains : Target α → α → Bool
  | all, _ => true
  | specific s, v => decide (v ∈ s)

/-- `Target::union`: if either side is `All` the result is `All`; otherwise
the two specific sets are unioned. -/
def union : Target α → Target α → Target α
  | all, _ => all
  | _, all => all
  | specific lhs, specific rhs => specific (lhs ∪ rhs)

end Target

/-- Retention-relevant state of `BlockStorage`
(`crates/execution-witness-sentry/src/storage.rs`). `dirs` is the set of
block-hash directories currently existing under `{output_dir}/{chain}/`;
`queue` is the `retained` `VecDeque` of block hashes; `deleted` logs, in
order, the hashes passed to `delete_old_block`. The retention capacity `cap`
is carried as a parameter of `save_el_data`: `BlockStorage::new` with
`retain = Some cap` creates the queue with capacity `cap`, and for `cap ≥ 1`
the queue never grows past it (each save pops before pushing once the queue
is full), so `retained.capacity()` stays `cap`. -/
structure StorageState where
  dirs : Finset Nat
  queue : List Nat
  deleted : List Nat
deriving DecidableEq

/-- `BlockStorage::save_el_data` (storage.rs lines 148-189), restricted to
its effect on block-hash directories: the directory for `h` is created
(metadata and gzipped data writes), then, when retention is configured and
`retained.len() == retained.capacity()`, the front hash is popped, the new
hash is pushed, and the popped hash's directory is deleted
(`delete_old_block` is a no-op when the directory no longer exists, which
`Finset.erase` models). The push happens even when nothing was popped. -/
def save_el_data (cap : Nat) (h : Nat) (s : StorageState) : StorageState :=
  let dirs1 := insert h s.dirs
  if s.queue.length = cap then
    match s.queue with
    | [] => { dirs := dirs1, queue := [h], deleted := s.deleted }
    | f :: rest =>
        { dirs := dirs1.erase f, queue := rest ++ [h], deleted := s.deleted ++ [f] }
  else
    { dirs := dirs1, queue := s.queue ++ [h], deleted := s.deleted }

/-- Running a sequence of `save_el_data` calls against a fresh storage. -/
def run_saves (cap : Nat) (l : List Nat) : StorageState :=
  l.foldl (fun s h => save_el_data cap h s) ⟨∅, [], []⟩

theorem run_saves_append (cap : Nat) (l : List Nat) (h : Nat) :
    run_saves cap (l ++ [h]) = save_el_data cap h (run_saves cap l) := by
  simp [run_saves, List.foldl_append]

theorem save_el_data_full (cap h : Nat) (s : StorageState) (f : Nat)
    (rest : List Nat) (hq : s.queue = f :: rest) (hlen : s.queue.length = cap) :
    save_el_data cap h s =
      { dirs := (insert h s.dirs).erase f, queue := rest ++ [h],
        deleted := s.deleted ++ [f] } := by
  have hc : (f :: rest).length = cap := by rw [← hq, hlen]
  simp [save_el_data, hq, hc]

theorem save_el_data_not_full (cap h : Nat) (s : StorageState)
    (hlen : s.queue.length ≠ cap) :
    save_el_data cap h s =
      { dirs := insert h s.dirs, queue := s.queue ++ [h],
        deleted := s.deleted } := by
  simp [save_el_data, hlen]

/-- Structural invariant of the retention machinery: for a positive capacity,
the queue is always the last `cap` saves, the deletion log is always the
save sequence minus its last `cap` entries, and every existing directory's
hash is in the queue. -/
theorem run_saves_invariant (cap : Nat) (hcap : 1 ≤ cap) (l : List Nat) :
    (run_saves cap l).queue = l.drop (l.length - cap) ∧
    (run_saves cap l).deleted = l.take (l.length - cap) ∧
    ∀ x ∈ (run_saves cap l).dirs, x ∈ (run_saves cap l).queue := by
  induction l using List.reverseRecOn with
  | nil => simp [run_saves]
  | append_singleton l h ih =>
    obtain ⟨hq, hd, hsub⟩ := ih
    rw [run_saves_append]
    have harith : l.length + 1 - cap = if cap ≤ l.length
        then l.length - cap + 1 else 0 := by
      split <;> omega
    by_cases hfull : cap ≤ l.length
    · -- the queue holds exactly `cap` entries: pop, push, delete
      have hlen : (run_saves cap l).queue.length = cap := by
        rw [hq, List.length_drop]; omega
      have hne : (run_saves cap l).queue ≠ [] := by
        refine List.ne_nil_of_length_pos ?_
        rw [hlen]; omega
      obtain ⟨f, rest, hfr⟩ := List.exists_cons_of_ne_nil hne
      have hget : l[l.length - cap]? = some f := by
        have h0 : (List.drop (l.length - cap) l)[0]? = some f := by
          rw [← hq, hfr]; simp
        rwa [List.getElem?_drop, Nat.add_zero] at h0
      have hrest : List.drop (l.length - cap + 1) l = rest := by
        rw [← List.tail_drop, ← hq, hfr, List.tail_cons]
      rw [save_el_data_full cap h _ f rest hfr hlen]
      refine ⟨?_, ?_, ?_⟩
      · rw [List.length_append, List.length_singleton, harith, if_pos hfull,
          List.drop_append_of_le_length (by omega), hrest]
      · rw [List.length_append, List.length_singleton, harith, if_pos hfull,
          List.take_append_of_le_length (by omega), List.take_succ, hget, hd]
        rfl
      · intro x hx
        rcases Finset.mem_erase.mp hx with ⟨hxf, hx1⟩
        rcases Finset.mem_insert.mp hx1 with hxh | hxd
        · simp [hxh]
        · have hxq : x ∈ (run_saves cap l).queue := hsub x hxd
          rw [hfr] at hxq
          rcases List.mem_cons.mp hxq with hcf | hcr
          · exact absurd hcf hxf
          · simp [hcr]
    · -- fewer than `cap` entries: plain push, nothing deleted
      have hlen : (run_saves cap l).queue.length ≠ cap := by
        rw [hq, List.length_drop]; omega
      rw [save_el_data_not_full cap h _ hlen]
      have hz : l.length - cap = 0 := by omega
      refine ⟨?_, ?_, ?_⟩
      · rw [List.length_append, List.length_singleton, harith, if_neg hfull,
          List.drop_zero, hq, hz, List.drop_zero]
      · rw [List.length_append, List.length_singleton, harith, if_neg hfull,
          List.take_zero, hd, hz, List.take_zero]
      · intro x hx
        rcases Finset.mem_insert.mp hx with hxh | hxd
        · simp [hxh]
        · have := hsub x hxd
          simp [this]

/-- C2 counterexample: eviction is not FIFO by time of first save once a
block hash is saved more than once. With `retain = 2` and saves
`[1, 2, 1, 1]`, hash `1` is first saved before hash `2`, yet the fourth save
deletes the directory of hash `2` while the directory of hash `1` (the
earliest-first-saved hash, whose directory exists at that moment) survives. -/
theorem claim_C2_counterexample :
    List.indexOf 1 [1, 2, 1, 1] < List.indexOf 2 [1, 2, 1, 1] ∧
    (run_saves 2 [1, 2, 1, 1]).deleted = [1, 2] ∧
    (run_saves 2 [1, 2, 1, 1]).dirs = {1} := by
  decide

/-- C2 (amended): for every positive configured retention limit `R`, after
any sequence of `save_el_data` calls (repeated saves of the same hash
included) at most `R` block-hash directories exist, and the hashes handed to
`delete_old_block` are exactly the save arguments in save-event order minus
the last `R` — FIFO by save event, which coincides with FIFO by time of
first save only when no hash is saved twice. -/
theorem claim_C2_retention_bound (cap : Nat) (hcap : 1 ≤ cap) (l : List Nat) :
    (run_saves cap l).dirs.card ≤ cap ∧
    (run_saves cap l).deleted = l.take (l.length - cap) := by
  obtain ⟨hq, hd, hsub⟩ := run_saves_invariant cap hcap l
  refine ⟨?_, hd⟩
  have hsubset : (run_saves cap l).dirs ⊆ (run_saves cap l).queue.toFinset := by
    intro x hx
    exact List.mem_toFinset.mpr (hsub x hx)
  calc (run_saves cap l).dirs.card
      ≤ (run_saves cap l).queue.toFinset.card := Finset.card_le_card hsubset
    _ ≤ (run_saves cap l).queue.length := (run_saves cap l).queue.toFinset_card_le
    _ ≤ cap := by rw [hq, List.length_drop]; omega

/-- Witness for the amended C2 theorem at `retain = 2`, saves `[1, 2, 3]`
(the spec's retention-eviction scenario: `A` evicted, `B`, `C` kept). -/
theorem claim_C2_retention_bound_witness :
    1 ≤ 2 ∧
    ((run_saves 2 [1, 2, 3]).dirs.card ≤ 2 ∧
      (run_saves 2 [1, 2, 3]).deleted = [1, 2, 3].take ([1, 2, 3].length - 2)) :=
  ⟨by decide, claim_C2_retention_bound 2 (by decide) [1, 2, 3]⟩

/-- Timeout after which an in-flight proof job may be retried
(`PENDING_PROOF_TIMEOUT`, proof.rs line 59), in seconds. -/
def PENDING_PROOF_TIMEOUT : Nat := 300

/-- Maximum number of retries for CL proof submission
(`PROOF_SUBMISSION_MAX_RETRIES`, proof.rs line 62). -/
def PROOF_SUBMISSION_MAX_RETRIES : Nat := 3

/-- `ElProofType::proof_id`: the enum and its stable byte identifier are
both modelled by the same `Nat`. -/
def elProofId (proof_type : Nat) : Nat := proof_type

/-- `PendingRequest` (proof.rs lines 104-114). -/
structure PendingRequest where
  slot : Nat
  block_root : Nat
  target_clients : Target String
  created_at : Nat
deriving DecidableEq

/-- `PendingProof` (proof.rs lines 121-137). -/
structure PendingProof where
  proof_type : Nat
  slot : Nat
  block_hash : Nat
  beacon_block_root : Nat
  target_clients : Target String
  created_at : Nat
  proof_gen_id : Nat
deriving DecidableEq

/-- `Proof` (storage.rs lines 44-50). -/
structure Proof where
  proof_type : Nat
  proof_data : List Nat
deriving DecidableEq

/-- `ExecutionProof` as submitted to a CL client. -/
structure ExecutionProof where
  proof_id : Nat
  slot : Nat
  block_hash : Nat
  block_root : Nat
  proof_data : List Nat
deriving DecidableEq

/-- Modelled from the spec: `zkboost_types::ProofResult`, the webhook body
`{ proof_gen_id, public_values, proof, proving_time_ms, error? }` (spec
§4.5.5/§6); the crate defining it is not part of the sentry sources, but the
handler in proof.rs uses exactly the fields below. The opaque `ProofGenId`
string is modelled as a `Nat`. -/
structure ProofResult where
  proof_gen_id : Nat
  public_values : List Nat
  proof : List Nat
  proving_time_ms : Nat
  error : Option String
deriving DecidableEq

/-- The mutable state of `ProofService` (proof.rs lines 150-172) as far as
the claims observe it, together with observation logs. `el_data_cache` and
`storage_el` record which block hashes have EL block-witness data in the LRU
cache and on disk (the data itself is opaque to every claim);
`has_storage` models `storage: Option<...>`; `submissions` logs the
`submit_proof` tasks spawned towards CL clients; `engine_posts` logs each
`POST /prove` sent to the proof engine together with the time it was made.
LRU eviction is not modelled: the capacities (1024) are never reached in
the scenarios quantified here. -/
structure PSState where
  el_data_cache : List Nat
  proof_cache : List ((Nat × Nat) × Proof)
  has_storage : Bool
  storage_proofs : List ((Nat × Nat) × Proof)
  storage_el : List Nat
  pending_requests : List (Nat × List (Nat × PendingRequest))
  pending_proofs : List ((Nat × Nat) × PendingProof)
  proof_gen_ids : List (Nat × (Nat × Nat))
  cl_clients : List String
  submissions : List (String × ExecutionProof)
  engine_posts : List ((Nat × Nat) × Nat)
deriving DecidableEq

/-- `ProofService::submit_proofs` (proof.rs lines 558-587): filter the
zkVM-enabled CL clients by `target_clients.contains` on their names and
spawn one `submit_proof` task per remaining client (modelled by appending
to the `submissions` log). -/
def ps_submit_proofs (s : PSState) (target_clients : Target String)
    (slot block_hash block_root proof_type : Nat)
    (proof_data : List Nat) : PSState :=
  let clients := s.cl_clients.filter (fun c => target_clients.contains c)
  { s with submissions := s.submissions ++ clients.map (fun c =>
      (c, { proof_id := elProofId proof_type, slot := slot,
            block_hash := block_hash, block_root := block_root,
            proof_data := proof_data })) }

/-- `ProofService::load_proof` (proof.rs lines 419-448): cache first, then
disk; a disk hit repopulates the cache. A disk error is logged and treated
as a miss, like `Ok(None)`. -/
def load_proof (s : PSState) (block_hash proof_type : Nat) :
    Option Proof × PSState :=
  match alookup (block_hash, proof_type) s.proof_cache with
  | some proof => (some proof, s)
  | none =>
    if s.has_storage then
      match alookup (block_hash, proof_type) s.storage_proofs with
      | some proof =>
        (some proof,
          { s with proof_cache :=
              ainsert (block_hash, proof_type) proof s.proof_cache })
      | none => (none, s)
    else (none, s)

/-- `is_el_data_available` (service.rs lines 118-151): cache hit, else disk
load, which repopulates the cache. -/
def el_data_available (s : PSState) (block_hash : Nat) : Bool × PSState :=
  if block_hash ∈ s.el_data_cache then (true, s)
  else if s.has_storage then
    if block_hash ∈ s.storage_el then
      (true, { s with el_data_cache := block_hash :: s.el_data_cache })
    else (false, s)
  else (false, s)

/-- The tail of `ProofService::request_proof` from the proof-engine call on
(proof.rs lines 512-554). `engine_resp = some id` models
`Ok(proof_gen_id)`; `none` models `Err`, after which nothing is inserted. -/
def request_proof_submit (s : PSState) (now slot block_root block_hash : Nat)
    (target_clients : Target String) (proof_type : Nat)
    (engine_resp : Option Nat) : PSState :=
  let proof_key := (block_hash, proof_type)
  let s1 := { s with engine_posts := s.engine_posts ++ [(proof_key, now)] }
  match engine_resp with
  | some proof_gen_id =>
    { s1 with
      pending_proofs := ainsert proof_key
        { proof_type := proof_type, slot := slot, block_hash := block_hash,
          beacon_block_root := block_root, target_clients := target_clients,
          created_at := now, proof_gen_id := proof_gen_id } s1.pending_proofs,
      proof_gen_ids := ainsert proof_gen_id proof_key s1.proof_gen_ids }
  | none => s1

/-- `ProofService::request_proof` (proof.rs lines 455-555): abort if the EL
block data is not in the cache; skip if a pending proof younger than
`PENDING_PROOF_TIMEOUT` exists; on a stale pending proof drop its
`proof_gen_ids` mapping and fall through to the engine submission. -/
def request_proof (s : PSState) (now slot block_root block_hash : Nat)
    (target_clients : Target String) (proof_type : Nat)
    (engine_resp : Option Nat) : PSState :=
  if block_hash ∈ s.el_data_cache then
    match alookup (block_hash, proof_type) s.pending_proofs with
    | some pending =>
      if now - pending.created_at < PENDING_PROOF_TIMEOUT then s
      else
        request_proof_submit
          { s with proof_gen_ids := aremove pending.proof_gen_id s.proof_gen_ids }
          now slot block_root block_hash target_clients proof_type engine_resp
    | none =>
      request_proof_submit s now slot block_root block_hash target_clients
        proof_type engine_resp
  else s

/-- `ProofService::handle_request_proof` (proof.rs lines 326-382): deliver a
saved proof if one exists, else request generation if EL data is available,
else insert/merge a `PendingRequest` (`and_modify` unions the target
clients of an existing entry; `or_insert_with` stamps `created_at` only on
first insert). -/
def handle_request_proof (s : PSState)
    (now slot block_root execution_block_hash : Nat)
    (target_clients : Target String) (proof_type : Nat)
    (engine_resp : Option Nat) : PSState :=
  match load_proof s execution_block_hash proof_type with
  | (some saved_proof, s1) =>
    ps_submit_proofs s1 target_clients slot execution_block_hash block_root
      proof_type saved_proof.proof_data
  | (none, s1) =>
    match el_data_available s1 execution_block_hash with
    | (true, s2) =>
      request_proof s2 now slot block_root execution_block_hash
        target_clients proof_type engine_resp
    | (false, s2) =>
      let block_requests := (alookup execution_block_hash s2.pending_requests).getD []
      let block_requests1 :=
        match alookup proof_type block_requests with
        | some existing =>
          ainsert proof_type
            { existing with
              target_clients := existing.target_clients.union target_clients }
            block_requests
        | none =>
          ainsert proof_type
            { slot := slot, block_root := block_root,
              target_clients := target_clients, created_at := now }
            block_requests
      { s2 with pending_requests :=
          ainsert execution_block_hash block_requests1 s2.pending_requests }

/-- `proof_webhook` (proof.rs lines 686-777): the axum handler for
`POST /proofs`. Returns the HTTP status code (200, 400 or 500) and the
state after handling. -/
def proof_webhook (s : PSState) (proof_result : ProofResult) :
    Nat × PSState :=
  match alookup proof_result.proof_gen_id s.proof_gen_ids with
  | none => (400, s)
  | some proof_key =>
    let s1 := { s with
      proof_gen_ids := aremove proof_result.proof_gen_id s.proof_gen_ids }
    match alookup proof_key s1.pending_proofs with
    | none => (500, s1)
    | some pending_proof =>
      let s2 := { s1 with pending_proofs := aremove proof_key s1.pending_proofs }
      match proof_result.error with
      | some _ => (200, s2)
      | none =>
        let saved : Proof :=
          { proof_type := pending_proof.proof_type,
            proof_data := proof_result.proof }
        let s3 := { s2 with
          proof_cache :=
            ainsert (pending_proof.block_hash, pending_proof.proof_type) saved
              s2.proof_cache }
        let s4 :=
          if s3.has_storage then
            { s3 with
              storage_proofs :=
                ainsert (pending_proof.block_hash, pending_proof.proof_type)
                  saved s3.storage_proofs }
          else s3
        let s5 := ps_submit_proofs s4 pending_proof.target_clients
          pending_proof.slot pending_proof.block_hash
          pending_proof.beacon_block_root pending_proof.proof_type
          proof_result.proof
        (200, s5)

theorem proof_webhook_unknown (s : PSState) (pr : ProofResult)
    (h : alookup pr.proof_gen_id s.proof_gen_ids = none) :
    proof_webhook s pr = (400, s) := by
  simp [proof_webhook, h]

theorem proof_webhook_gen_ids_after (s : PSState) (pr : ProofResult)
    (key : Nat × Nat) (h : alookup pr.proof_gen_id s.proof_gen_ids = some key) :
    (proof_webhook s pr).2.proof_gen_ids =
      aremove pr.proof_gen_id s.proof_gen_ids := by
  simp only [proof_webhook, h]
  cases h2 : alookup key s.pending_proofs with
  | none => rfl
  | some pending =>
    cases herr : pr.error with
    | some e => rfl
    | none =>
      cases hst : s.has_storage <;>
        simp [ps_submit_proofs, hst]

/-- C3: the webhook returns 400 for any request whose `proof_gen_id` is
unknown (leaving the state untouched) and removes the `proof_gen_ids`
mapping on first receipt of a known id, so a second delivery of the same
webhook returns 400 with the state — in particular the log of spawned CL
submissions — unchanged. -/
theorem claim_C3_webhook_idempotency (s : PSState) (pr : ProofResult) :
    (alookup pr.proof_gen_id s.proof_gen_ids = none →
      proof_webhook s pr = (400, s)) ∧
    (∀ key, alookup pr.proof_gen_id s.proof_gen_ids = some key →
      alookup pr.proof_gen_id (proof_webhook s pr).2.proof_gen_ids = none ∧
      proof_webhook (proof_webhook s pr).2 pr = (400, (proof_webhook s pr).2) ∧
      (proof_webhook (proof_webhook s pr).2 pr).2.submissions =
        (proof_webhook s pr).2.submissions) := by
  constructor
  · intro h
    exact proof_webhook_unknown s pr h
  · intro key h
    have hnone : alookup pr.proof_gen_id (proof_webhook s pr).2.proof_gen_ids
        = none := by
      rw [proof_webhook_gen_ids_after s pr key h]
      exact alookup_aremove pr.proof_gen_id s.proof_gen_ids
    have hsecond : proof_webhook (proof_webhook s pr).2 pr
        = (400, (proof_webhook s pr).2) :=
      proof_webhook_unknown (proof_webhook s pr).2 pr hnone
    exact ⟨hnone, hsecond, by rw [hsecond]⟩

/-- Concrete `ProofService` state for the C3 witness: one in-flight proof
job for block hash 1, proof type 2, engine job id 7. -/
def sC3 : PSState :=
  { el_data_cache := [1], proof_cache := [], has_storage := false,
    storage_proofs := [], storage_el := [], pending_requests := [],
    pending_proofs :=
      [((1, 2), { proof_type := 2, slot := 5, block_hash := 1,
                  beacon_block_root := 9, target_clients := Target.all,
                  created_at := 0, proof_gen_id := 7 })],
    proof_gen_ids := [(7, (1, 2))], cl_clients := ["cl1"],
    submissions := [], engine_posts := [] }

/-- Concrete successful webhook body for the C3 witness. -/
def prC3 : ProofResult :=
  { proof_gen_id := 7, public_values := [], proof := [42],
    proving_time_ms := 11, error := none }

/-- Witness for C3 at a concrete in-flight job and webhook body. -/
theorem claim_C3_webhook_idempotency_witness :
    alookup prC3.proof_gen_id sC3.proof_gen_ids = some (1, 2) ∧
    (alookup prC3.proof_gen_id (proof_webhook sC3 prC3).2.proof_gen_ids = none ∧
      proof_webhook (proof_webhook sC3 prC3).2 prC3 =
        (400, (proof_webhook sC3 prC3).2) ∧
      (proof_webhook (proof_webhook sC3 prC3).2 prC3).2.submissions =
        (proof_webhook sC3 prC3).2.submissions) :=
  ⟨by decide, (claim_C3_webhook_idempotency sC3 prC3).2 (1, 2) (by decide)⟩

/-- C6: on a webhook whose body has the `error` field set, for a known
`proof_gen_id` with a matching pending proof, the handler returns 200 after
removing exactly the `PendingProof` and its `proof_gen_ids` entry; the proof
cache, the on-disk proofs and the submission log are untouched, and the
`ProofKey` is free again: a later `request_proof` for it (with EL data
cached) reaches the proof engine. -/
theorem claim_C6_webhook_error_field (s : PSState) (pr : ProofResult)
    (key : Nat × Nat) (pending : PendingProof) (e : String)
    (hk : alookup pr.proof_gen_id s.proof_gen_ids = some key)
    (hp : alookup key s.pending_proofs = some pending)
    (he : pr.error = some e) :
    proof_webhook s pr =
      (200, { s with
        proof_gen_ids := aremove pr.proof_gen_id s.proof_gen_ids,
        pending_proofs := aremove key s.pending_proofs }) ∧
    alookup key (proof_webhook s pr).2.pending_proofs = none ∧
    (proof_webhook s pr).2.proof_cache = s.proof_cache ∧
    (proof_webhook s pr).2.storage_proofs = s.storage_proofs ∧
    (proof_webhook s pr).2.submissions = s.submissions ∧
    ∀ now slot block_root engine_resp tc,
      key.1 ∈ s.el_data_cache →
      (request_proof (proof_webhook s pr).2 now slot block_root key.1 tc
          key.2 engine_resp).engine_posts =
        (proof_webhook s pr).2.engine_posts ++ [((key.1, key.2), now)] := by
  have hmain : proof_webhook s pr =
      (200, { s with
        proof_gen_ids := aremove pr.proof_gen_id s.proof_gen_ids,
        pending_proofs := aremove key s.pending_proofs }) := by
    simp only [proof_webhook, hk, hp, he]
  refine ⟨hmain, ?_, ?_, ?_, ?_, ?_⟩
  · rw [hmain]
    exact alookup_aremove key s.pending_proofs
  · rw [hmain]
  · rw [hmain]
  · rw [hmain]
  · intro now slot block_root engine_resp tc hcache
    rw [hmain]
    have hpend : alookup (key.1, key.2)
        (aremove key s.pending_proofs) = none := by
      rw [Prod.mk.eta]
      exact alookup_aremove key s.pending_proofs
    simp only [request_proof]
    rw [if_pos hcache]
    rw [hpend]
    cases engine_resp <;> simp [request_proof_submit]

/-- Concrete state for the C6 witness: same in-flight job as `sC3`. -/
def sC6 : PSState :=
  { el_data_cache := [1], proof_cache := [], has_storage := true,
    storage_proofs := [], storage_el := [], pending_requests := [],
    pending_proofs :=
      [((1, 2), { proof_type := 2, slot := 5, block_hash := 1,
                  beacon_block_root := 9, target_clients := Target.all,
                  created_at := 0, proof_gen_id := 7 })],
    proof_gen_ids := [(7, (1, 2))], cl_clients := ["cl1"],
    submissions := [], engine_posts := [] }

/-- Concrete failed webhook body (`error = "oom"`) for the C6 witness. -/
def prC6 : ProofResult :=
  { proof_gen_id := 7, public_values := [], proof := [],
    proving_time_ms := 11, error := some "oom" }

/-- Witness for C6 at the spec's `error="oom"` scenario. -/
theorem claim_C6_webhook_error_field_witness :
    (alookup prC6.proof_gen_id sC6.proof_gen_ids = some (1, 2) ∧
      alookup ((1 : Nat), (2 : Nat)) sC6.pending_proofs =
        some { proof_type := 2, slot := 5, block_hash := 1,
               beacon_block_root := 9, target_clients := Target.all,
               created_at := 0, proof_gen_id := 7 } ∧
      prC6.error = some "oom") ∧
    (proof_webhook sC6 prC6 =
      (200, { sC6 with
        proof_gen_ids := aremove prC6.proof_gen_id sC6.proof_gen_ids,
        pending_proofs := aremove (1, 2) sC6.pending_proofs }) ∧
    alookup ((1 : Nat), (2 : Nat)) (proof_webhook sC6 prC6).2.pending_proofs
        = none ∧
    (proof_webhook sC6 prC6).2.proof_cache = sC6.proof_cache ∧
    (proof_webhook sC6 prC6).2.storage_proofs = sC6.storage_proofs ∧
    (proof_webhook sC6 prC6).2.submissions = sC6.submissions ∧
    ∀ now slot block_root engine_resp tc,
      (1 : Nat) ∈ sC6.el_data_cache →
      (request_proof (proof_webhook sC6 prC6).2 now slot block_root 1 tc
          2 engine_resp).engine_posts =
        (proof_webhook sC6 prC6).2.engine_posts ++ [((1, 2), now)]) :=
  ⟨⟨by decide, by decide, by decide⟩,
    claim_C6_webhook_error_field sC6 prC6 (1, 2)
      { proof_type := 2, slot := 5, block_hash := 1, beacon_block_root := 9,
        target_clients := Target.all, created_at := 0, proof_gen_id := 7 }
      "oom" (by decide) (by decide) (by decide)⟩

/-- C10: when the webhook finds the `proof_gen_id` but no matching
`pending_proofs` entry, it answers 500 having already removed — and not
restored — the `proof_gen_ids` mapping, so re-delivering the same webhook
afterwards yields 400, not 500. -/
theorem claim_C10_webhook_500_path (s : PSState) (pr : ProofResult)
    (key : Nat × Nat)
    (hk : alookup pr.proof_gen_id s.proof_gen_ids = some key)
    (hp : alookup key s.pending_proofs = none) :
    proof_webhook s pr =
      (500, { s with
        proof_gen_ids := aremove pr.proof_gen_id s.proof_gen_ids }) ∧
    alookup pr.proof_gen_id (proof_webhook s pr).2.proof_gen_ids = none ∧
    proof_webhook (proof_webhook s pr).2 pr =
      (400, (proof_webhook s pr).2) := by
  have hmain : proof_webhook s pr =
      (500, { s with
        proof_gen_ids := aremove pr.proof_gen_id s.proof_gen_ids }) := by
    simp only [proof_webhook, hk, hp]
  have hnone : alookup pr.proof_gen_id (proof_webhook s pr).2.proof_gen_ids
      = none := by
    rw [hmain]
    exact alookup_aremove pr.proof_gen_id s.proof_gen_ids
  exact ⟨hmain, hnone, proof_webhook_unknown (proof_webhook s pr).2 pr hnone⟩

/-- Concrete inconsistent state for the C10 witness: `proof_gen_ids` knows
job 7, but `pending_proofs` has no entry for its key. -/
def sC10 : PSState :=
  { el_data_cache := [], proof_cache := [], has_storage := false,
    storage_proofs := [], storage_el := [], pending_requests := [],
    pending_proofs := [], proof_gen_ids := [(7, (1, 2))],
    cl_clients := [], submissions := [], engine_posts := [] }

/-- Witness for C10 at a concrete inconsistent state. -/
theorem claim_C10_webhook_500_path_witness :
    (alookup prC3.proof_gen_id sC10.proof_gen_ids = some (1, 2) ∧
      alookup ((1 : Nat), (2 : Nat)) sC10.pending_proofs = none) ∧
    (proof_webhook sC10 prC3 =
      (500, { sC10 with
        proof_gen_ids := aremove prC3.proof_gen_id sC10.proof_gen_ids }) ∧
    alookup prC3.proof_gen_id (proof_webhook sC10 prC3).2.proof_gen_ids
        = none ∧
    proof_webhook (proof_webhook sC10 prC3).2 prC3 =
      (400, (proof_webhook sC10 prC3).2)) :=
  ⟨⟨by decide, by decide⟩,
    claim_C10_webhook_500_path sC10 prC3 (1, 2) (by decide) (by decide)⟩

theorem request_proof_cache_fixed (s : PSState)
    (now slot block_root block_hash : Nat) (tc : Target String)
    (proof_type : Nat) (engine_resp : Option Nat) :
    (request_proof s now slot block_root block_hash tc proof_type
      engine_resp).el_data_cache = s.el_data_cache := by
  by_cases hc : block_hash ∈ s.el_data_cache
  · simp only [request_proof, if_pos hc]
    cases hpend : alookup (block_hash, proof_type) s.pending_proofs with
    | none => cases engine_resp <;> rfl
    | some pending =>
      by_cases hfresh : now - pending.created_at < PENDING_PROOF_TIMEOUT
      · simp [hfresh]
      · simp only [if_neg hfresh]
        cases engine_resp <;> rfl
  · simp [request_proof, hc]

/-- The times at which `POST /prove` was sent for a given proof key,
read off an `engine_posts` log. -/
def post_times (key : Nat × Nat) (log : List ((Nat × Nat) × Nat)) :
    List Nat :=
  (log.filter (fun p => decide (p.1 = key))).map Prod.snd

/-- A sequence of `request_proof` calls for one proof key, each call given
as `(now, proof_gen_id)` — the engine accepts every submission. -/
def run_request_proofs (slot block_root block_hash : Nat)
    (tc : Target String) (proof_type : Nat) (calls : List (Nat × Nat))
    (s : PSState) : PSState :=
  calls.foldl
    (fun st c =>
      request_proof st c.1 slot block_root block_hash tc proof_type
        (some c.2)) s

/-- Invariant tying the POST log for a key to its pending-proof entry: the
logged POST times are at least `PENDING_PROOF_TIMEOUT` apart, every logged
POST is covered by the current pending entry, and that entry was created no
later than `tmin`. -/
def rp_window_inv (key : Nat × Nat) (s : PSState) (tmin : Nat) : Prop :=
  List.Pairwise (fun a b => a + PENDING_PROOF_TIMEOUT ≤ b)
    (post_times key s.engine_posts) ∧
  (∀ p ∈ post_times key s.engine_posts,
    ∃ pp, alookup key s.pending_proofs = some pp ∧ p ≤ pp.created_at) ∧
  (∀ pp, alookup key s.pending_proofs = some pp → pp.created_at ≤ tmin)

theorem post_times_append (key : Nat × Nat)
    (log : List ((Nat × Nat) × Nat)) (now : Nat) :
    post_times key (log ++ [(key, now)]) = post_times key log ++ [now] := by
  simp [post_times, List.filter_append]

theorem rp_window_step (s : PSState) (now slot block_root block_hash : Nat)
    (tc : Target String) (proof_type gid tmin : Nat)
    (hcache : block_hash ∈ s.el_data_cache)
    (hinv : rp_window_inv (block_hash, proof_type) s tmin)
    (hnow : tmin ≤ now) :
    rp_window_inv (block_hash, proof_type)
      (request_proof s now slot block_root block_hash tc proof_type
        (some gid)) now := by
  obtain ⟨hpair, hcover, hage⟩ := hinv
  have hsub : ∀ s1 : PSState,
      s1.engine_posts = s.engine_posts → post_times (block_hash, proof_type)
          s.engine_posts = [] →
      rp_window_inv (block_hash, proof_type)
        (request_proof_submit s1 now slot block_root block_hash tc
          proof_type (some gid)) now := by
    intro s1 hlog hempty
    refine ⟨?_, ?_, ?_⟩
    · show List.Pairwise _ (post_times (block_hash, proof_type)
        (s1.engine_posts ++ [((block_hash, proof_type), now)]))
      rw [hlog, post_times_append, hempty]
      simp
    · intro p hp
      refine ⟨_, alookup_ainsert (block_hash, proof_type) _ s1.pending_proofs, ?_⟩
      show p ≤ now
      rw [show (request_proof_submit s1 now slot block_root block_hash tc
            proof_type (some gid)).engine_posts =
          s1.engine_posts ++ [((block_hash, proof_type), now)] from rfl,
        hlog, post_times_append, hempty] at hp
      have hpn : p = now := by simpa using hp
      exact le_of_eq hpn
    · intro pp hpp
      rw [show (request_proof_submit s1 now slot block_root block_hash tc
            proof_type (some gid)).pending_proofs =
          ainsert (block_hash, proof_type)
            { proof_type := proof_type, slot := slot,
              block_hash := block_hash, beacon_block_root := block_root,
              target_clients := tc, created_at := now,
              proof_gen_id := gid } s1.pending_proofs from rfl,
        alookup_ainsert] at hpp
      cases hpp
      exact le_refl now
  cases hpend : alookup (block_hash, proof_type) s.pending_proofs with
  | none =>
    have hempty : post_times (block_hash, proof_type) s.engine_posts = [] := by
      cases hcase : post_times (block_hash, proof_type) s.engine_posts with
      | nil => rfl
      | cons p t =>
        obtain ⟨pp, hpp, _⟩ := hcover p (by rw [hcase]; exact List.mem_cons_self p t)
        rw [hpend] at hpp
        cases hpp
    have hres : request_proof s now slot block_root block_hash tc proof_type
        (some gid) = request_proof_submit s now slot block_root block_hash tc
          proof_type (some gid) := by
      simp [request_proof, hcache, hpend]
    rw [hres]
    exact hsub s rfl hempty
  | some pending =>
    by_cases hfresh : now - pending.created_at < PENDING_PROOF_TIMEOUT
    · have hres : request_proof s now slot block_root block_hash tc
          proof_type (some gid) = s := by
        simp [request_proof, hcache, hpend, hfresh]
      rw [hres]
      exact ⟨hpair, hcover, fun pp hpp => le_trans (hage pp hpp) hnow⟩
    · -- stale entry: every previously logged POST is older than 300 s
      have hstale : pending.created_at + PENDING_PROOF_TIMEOUT ≤ now := by
        simp only [PENDING_PROOF_TIMEOUT] at hfresh ⊢
        omega
      have hres : request_proof s now slot block_root block_hash tc
          proof_type (some gid) =
          request_proof_submit
            { s with proof_gen_ids :=
                aremove pending.proof_gen_id s.proof_gen_ids }
            now slot block_root block_hash tc proof_type (some gid) := by
        simp [request_proof, hcache, hpend, hfresh]
      rw [hres]
      refine ⟨?_, ?_, ?_⟩
      · show List.Pairwise _ (post_times (block_hash, proof_type)
          (s.engine_posts ++ [((block_hash, proof_type), now)]))
        rw [post_times_append]
        refine (List.pairwise_append).mpr ⟨hpair, by simp, ?_⟩
        intro a ha b hb
        rw [List.mem_singleton] at hb
        subst hb
        obtain ⟨pp, hpp, hle⟩ := hcover a ha
        rw [hpend] at hpp
        cases hpp
        exact le_trans (Nat.add_le_add_right hle _) hstale
      · intro p hp
        refine ⟨_, alookup_ainsert (block_hash, proof_type) _ _, ?_⟩
        show p ≤ now
        rw [show (request_proof_submit
              { s with proof_gen_ids :=
                  aremove pending.proof_gen_id s.proof_gen_ids }
              now slot block_root block_hash tc proof_type
              (some gid)).engine_posts =
            s.engine_posts ++ [((block_hash, proof_type), now)] from rfl,
          post_times_append] at hp
        rcases List.mem_append.mp hp with hold | hnew
        · obtain ⟨pp, hpp, hle⟩ := hcover p hold
          rw [hpend] at hpp
          cases hpp
          exact le_trans hle (le_trans (Nat.le_add_right _ _) hstale)
        · rw [List.mem_singleton] at hnew
          exact le_of_eq hnew
      · intro pp hpp
        rw [show (request_proof_submit
              { s with proof_gen_ids :=
                  aremove pending.proof_gen_id s.proof_gen_ids }
              now slot block_root block_hash tc proof_type
              (some gid)).pending_proofs =
            ainsert (block_hash, proof_type)
              { proof_type := proof_type, slot := slot,
                block_hash := block_hash, beacon_block_root := block_root,
                target_clients := tc, created_at := now,
                proof_gen_id := gid } s.pending_proofs from rfl,
          alookup_ainsert] at hpp
        cases hpp
        exact le_refl now

theorem run_request_proofs_inv (slot block_root block_hash : Nat)
    (tc : Target String) (proof_type : Nat) :
    ∀ (calls : List (Nat × Nat)) (s : PSState) (tmin : Nat),
      block_hash ∈ s.el_data_cache →
      rp_window_inv (block_hash, proof_type) s tmin →
      List.Chain (fun a b => a ≤ b) tmin (calls.map Prod.fst) →
      ∃ tfin, rp_window_inv (block_hash, proof_type)
        (run_request_proofs slot block_root block_hash tc proof_type calls s)
        tfin := by
  intro calls
  induction calls with
  | nil =>
    intro s tmin _ hinv _
    exact ⟨tmin, hinv⟩
  | cons c rest ih =>
    intro s tmin hc hinv hchain
    rw [List.map_cons] at hchain
    cases hchain with
    | cons hle hchain2 =>
      have hstep := rp_window_step s c.1 slot block_root block_hash tc
        proof_type c.2 tmin hc hinv hle
      have hc2 : block_hash ∈ (request_proof s c.1 slot block_root block_hash
          tc proof_type (some c.2)).el_data_cache := by
        rw [request_proof_cache_fixed]
        exact hc
      exact ih _ c.1 hc2 hstep hchain2

/-- Pending proof in flight since time 0 (engine job id 7), used by the C4
theorems. -/
def ppC4 : PendingProof :=
  { proof_type := 2, slot := 5, block_hash := 1, beacon_block_root := 9,
    target_clients := Target.all, created_at := 0, proof_gen_id := 7 }

/-- State with a stale pending proof for key `(1, 2)` whose EL data is not
in the cache. -/
def sC4a : PSState :=
  { el_data_cache := [], proof_cache := [], has_storage := false,
    storage_proofs := [], storage_el := [], pending_requests := [],
    pending_proofs := [((1, 2), ppC4)], proof_gen_ids := [(7, (1, 2))],
    cl_clients := [], submissions := [], engine_posts := [] }

/-- State with EL data for block hash 1 cached and no pending proof. -/
def sC4b : PSState :=
  { el_data_cache := [1], proof_cache := [], has_storage := false,
    storage_proofs := [], storage_el := [], pending_requests := [],
    pending_proofs := [], proof_gen_ids := [], cl_clients := [],
    submissions := [], engine_posts := [] }

/-- C4 counterexample. (a) A `request_proof` call finding a stale pending
entry while the EL block data is not in the cache returns before the dedup
logic: the stale `proof_gen_ids` mapping is not removed and no engine POST
is made, contrary to the claim's stale branch. (b) When the proof engine
rejects a submission, no pending entry is recorded, so two POSTs for the
same `ProofKey` are made 1 s apart — more than one `POST /prove` within a
300 s window, contrary to the claim's conclusion. -/
theorem claim_C4_counterexample :
    (PENDING_PROOF_TIMEOUT ≤ 1000 - ppC4.created_at ∧
      request_proof sC4a 1000 5 9 1 Target.all 2 (some 8) = sC4a ∧
      alookup 7 sC4a.proof_gen_ids = some (1, 2) ∧
      sC4a.engine_posts = []) ∧
    (request_proof (request_proof sC4b 100 5 9 1 Target.all 2 none)
        101 5 9 1 Target.all 2 none).engine_posts =
      [((1, 2), 100), ((1, 2), 101)] := by
  refine ⟨⟨by decide, by decide, by decide, by decide⟩, by decide⟩

/-- C4 (amended): for a `request_proof` call on key
`(block_hash, proof_type)`: (i) if `pending_proofs` holds an entry younger
than `PENDING_PROOF_TIMEOUT` (300 s), nothing is submitted and the state —
in particular both indices — is unchanged; (ii) if additionally the EL data
for the block is in the cache and the entry is stale, its `proof_gen_ids`
mapping is removed and a new engine POST is made; (iii) consequently, for
any sequence of calls with the EL data cached and the engine accepting each
submission, the POST times for the key are pairwise at least 300 s apart.
Without cached EL data a call does nothing, and after an engine error the
key is left unguarded, so the claim's unconditional forms fail (see the
counterexample). -/
theorem claim_C4_request_proof_dedup (s : PSState)
    (now slot block_root block_hash : Nat) (tc : Target String)
    (proof_type : Nat) (engine_resp : Option Nat) :
    (∀ pending,
      alookup (block_hash, proof_type) s.pending_proofs = some pending →
      now - pending.created_at < PENDING_PROOF_TIMEOUT →
      request_proof s now slot block_root block_hash tc proof_type
        engine_resp = s) ∧
    (∀ pending, block_hash ∈ s.el_data_cache →
      alookup (block_hash, proof_type) s.pending_proofs = some pending →
      PENDING_PROOF_TIMEOUT ≤ now - pending.created_at →
      engine_resp ≠ some pending.proof_gen_id →
      (request_proof s now slot block_root block_hash tc proof_type
          engine_resp).engine_posts =
        s.engine_posts ++ [((block_hash, proof_type), now)] ∧
      alookup pending.proof_gen_id
        (request_proof s now slot block_root block_hash tc proof_type
          engine_resp).proof_gen_ids = none) ∧
    (∀ calls : List (Nat × Nat), block_hash ∈ s.el_data_cache →
      s.engine_posts = [] →
      alookup (block_hash, proof_type) s.pending_proofs = none →
      List.Chain (fun a b => a ≤ b) 0 (calls.map Prod.fst) →
      List.Pairwise (fun a b => a + PENDING_PROOF_TIMEOUT ≤ b)
        (post_times (block_hash, proof_type)
          (run_request_proofs slot block_root block_hash tc proof_type
            calls s).engine_posts)) := by
  refine ⟨?_, ?_, ?_⟩
  · intro pending hpend hfresh
    by_cases hc : block_hash ∈ s.el_data_cache
    · simp [request_proof, hc, hpend, hfresh]
    · simp [request_proof, hc]
  · intro pending hc hpend hstale hne
    have hnl : ¬ (now - pending.created_at < PENDING_PROOF_TIMEOUT) :=
      not_lt.mpr hstale
    have hres : request_proof s now slot block_root block_hash tc proof_type
        engine_resp =
        request_proof_submit
          { s with proof_gen_ids :=
              aremove pending.proof_gen_id s.proof_gen_ids }
          now slot block_root block_hash tc proof_type engine_resp := by
      simp [request_proof, hc, hpend, hnl]
    constructor
    · rw [hres]
      cases engine_resp <;> rfl
    · rw [hres]
      cases engine_resp with
      | none => exact alookup_aremove pending.proof_gen_id s.proof_gen_ids
      | some gid =>
        have hgidne : pending.proof_gen_id ≠ gid := by
          intro h
          exact hne (by rw [h])
        show alookup pending.proof_gen_id
          (ainsert gid (block_hash, proof_type)
            (aremove pending.proof_gen_id s.proof_gen_ids)) = none
        rw [alookup_ainsert_ne gid pending.proof_gen_id _ _ hgidne]
        exact alookup_aremove pending.proof_gen_id s.proof_gen_ids
  · intro calls hc hposts hpend hchain
    have hinv0 : rp_window_inv (block_hash, proof_type) s 0 := by
      refine ⟨?_, ?_, ?_⟩
      · rw [hposts]
        simp [post_times]
      · intro p hp
        rw [hposts] at hp
        simp [post_times] at hp
      · intro pp hpp
        rw [hpend] at hpp
        cases hpp
    obtain ⟨tfin, hfin⟩ := run_request_proofs_inv slot block_root block_hash
      tc proof_type calls s 0 hc hinv0 hchain
    exact hfin.1

/-- Witness for the amended C4 theorem: a fresh duplicate is dropped, a
stale entry is replaced with a new POST, and a concrete all-success call
sequence at times 0, 100, 400 yields POSTs spaced at least 300 s apart. -/
theorem claim_C4_request_proof_dedup_witness :
    (alookup ((1 : Nat), (2 : Nat)) sC4a.pending_proofs = some ppC4 ∧
      100 - ppC4.created_at < PENDING_PROOF_TIMEOUT ∧
      request_proof sC4a 100 5 9 1 Target.all 2 (some 8) = sC4a) ∧
    ((1 : Nat) ∈ sC4b.el_data_cache ∧ sC4b.engine_posts = [] ∧
      alookup ((1 : Nat), (2 : Nat)) sC4b.pending_proofs = none ∧
      List.Chain (fun a b => a ≤ b) 0
        ([((0 : Nat), (50 : Nat)), (100, 51), (400, 52)].map Prod.fst) ∧
      List.Pairwise (fun a b => a + PENDING_PROOF_TIMEOUT ≤ b)
        (post_times (1, 2)
          (run_request_proofs 5 9 1 Target.all 2
            [(0, 50), (100, 51), (400, 52)] sC4b).engine_posts)) := by
  have hchain : List.Chain (fun a b : Nat => a ≤ b) 0
      ([((0 : Nat), (50 : Nat)), (100, 51), (400, 52)].map Prod.fst) :=
    List.Chain.cons (by decide) (List.Chain.cons (by decide)
      (List.Chain.cons (by decide) List.Chain.nil))
  refine ⟨⟨by decide, by decide, ?_⟩,
    ⟨by decide, by decide, by decide, hchain, ?_⟩⟩
  · exact (claim_C4_request_proof_dedup sC4a 100 5 9 1 Target.all 2
      (some 8)).1 ppC4 (by decide) (by decide)
  · exact (claim_C4_request_proof_dedup sC4b 0 5 9 1 Target.all 2 none).2.2
      [(0, 50), (100, 51), (400, 52)] (by decide) (by decide) (by decide)
      hchain

/-- C5: two `RequestProof` messages for the same `(block_hash, proof_type)`
handled while no saved proof exists and EL data is missing leave exactly one
`PendingRequest` under `pending_requests[block_hash][proof_type]`; its
`target_clients` is the union of the two requests' targets and its
`created_at` (and slot/block root) is the first request's — the second
request does not reset it. -/
theorem claim_C5_pending_merge (s : PSState)
    (t1 t2 slot1 slot2 br1 br2 h pt : Nat) (A B : Target String)
    (e1 e2 : Option Nat)
    (hc1 : alookup (h, pt) s.proof_cache = none)
    (hs1 : alookup (h, pt) s.storage_proofs = none)
    (hel1 : h ∉ s.el_data_cache)
    (hel2 : h ∉ s.storage_el)
    (hpr : alookup h s.pending_requests = none) :
    alookup h (handle_request_proof
        (handle_request_proof s t1 slot1 br1 h A pt e1)
        t2 slot2 br2 h B pt e2).pending_requests =
      some [(pt, { slot := slot1, block_root := br1,
                   target_clients := A.union B, created_at := t1 })] := by
  cases hst : s.has_storage
  all_goals
    have h1 : handle_request_proof s t1 slot1 br1 h A pt e1 =
        { s with pending_requests := ainsert h [(pt, PendingRequest.mk slot1 br1 A t1)] s.pending_requests } := by
      simp [handle_request_proof, load_proof, el_data_available, hc1, hs1,
        hel1, hel2, hst, hpr, alookup, ainsert, aremove]
    rw [h1]
    simp [handle_request_proof, load_proof, el_data_available, hc1, hs1,
      hel1, hel2, hst, alookup_ainsert, alookup, ainsert, aremove]

/-- Empty `ProofService` state for the C5 witness. -/
def sC5 : PSState :=
  { el_data_cache := [], proof_cache := [], has_storage := false,
    storage_proofs := [], storage_el := [], pending_requests := [],
    pending_proofs := [], proof_gen_ids := [], cl_clients := [],
    submissions := [], engine_posts := [] }

/-- Witness for C5: two requests targeting clients `a` and `b` merge into
one pending request with the union of the targets and the first
`created_at`. -/
theorem claim_C5_pending_merge_witness :
    (alookup ((1 : Nat), (2 : Nat)) sC5.proof_cache = none ∧
      alookup ((1 : Nat), (2 : Nat)) sC5.storage_proofs = none ∧
      (1 : Nat) ∉ sC5.el_data_cache ∧ (1 : Nat) ∉ sC5.storage_el ∧
      alookup (1 : Nat) sC5.pending_requests = none) ∧
    alookup 1 (handle_request_proof
        (handle_request_proof sC5 10 5 9 1 (Target.specific {"a"}) 2 none)
        20 6 8 1 (Target.specific {"b"}) 2 none).pending_requests =
      some [(2, { slot := 5, block_root := 9,
                  target_clients :=
                    (Target.specific {"a"}).union (Target.specific {"b"}),
                  created_at := 10 })] :=
  ⟨⟨by decide, by decide, by decide, by decide, by decide⟩,
    claim_C5_pending_merge sC5 10 20 5 6 9 8 1 2
      (Target.specific {"a"}) (Target.specific {"b"}) none none
      (by decide) (by decide) (by decide) (by decide) (by decide)⟩

/-- True when the first list starts with the second (element-wise). -/
def starts_with [DecidableEq α] : List α → List α → Bool
  | [], _ => true
  | _ :: _, [] => false
  | a :: as, b :: bs => decide (a = b) && starts_with as bs

/-- True when `needle` occurs contiguously inside the second list. -/
def has_sub [DecidableEq α] (needle : List α) : List α → Bool
  | [] => starts_with needle []
  | b :: bs => starts_with needle (b :: bs) || has_sub needle bs

/-- Rust `str::contains` on the CL error body, via the character lists. -/
def str_contains (s pat : String) : Bool := has_sub pat.toList s.toList

/-- Outcome of `submit_proof`'s response to one CL client. -/
inductive ClResp where
  | ok : ClResp
  | err : String → ClResp
deriving DecidableEq

/-- How the `submit_proof` retry loop terminated. -/
inductive SubmitOutcome where
  | submitted
  | alreadyKnown
  | maxRetriesExceeded
  | loopEnded
deriving DecidableEq

/-- Observable behaviour of one `submit_proof` task: how many HTTP attempts
were made, which backoff sleeps were performed between attempts, and how
the loop ended. -/
structure SubmitTrace where
  attempts : Nat
  sleeps : List Nat
  outcome : SubmitOutcome
deriving DecidableEq

/-- Body of the `for retry_count in 0..=PROOF_SUBMISSION_MAX_RETRIES` loop
of `submit_proof` (proof.rs lines 590-654), iterated over the remaining
retry counts. `resp rc` is the CL's response to attempt number `rc`:
success returns; an error whose body contains `"already known"` returns
(treated as success); otherwise, once `retry_count >=
PROOF_SUBMISSION_MAX_RETRIES`, the task gives up, else it sleeps
`2^retry_count` seconds and retries. -/
def submit_go (resp : Nat → ClResp) : List Nat → SubmitTrace
  | [] => { attempts := 0, sleeps := [], outcome := .loopEnded }
  | rc :: rest =>
    match resp rc with
    | .ok => { attempts := 1, sleeps := [], outcome := .submitted }
    | .err msg =>
      if str_contains msg "already known" then
        { attempts := 1, sleeps := [], outcome := .alreadyKnown }
      else if PROOF_SUBMISSION_MAX_RETRIES ≤ rc then
        { attempts := 1, sleeps := [], outcome := .maxRetriesExceeded }
      else
        let t := submit_go resp rest
        { attempts := t.attempts + 1, sleeps := 2 ^ rc :: t.sleeps,
          outcome := t.outcome }

/-- `submit_proof` (proof.rs lines 590-654). -/
def submit_proof (resp : Nat → ClResp) : SubmitTrace :=
  submit_go resp (List.range (PROOF_SUBMISSION_MAX_RETRIES + 1))

/-- C7: an error body containing `"already known"` stops the retries and
counts as success after exactly the attempts so far; otherwise the task
retries with backoff `2^retry_count` seconds, so errors followed by a
success within 3 retries give exactly one successful submission, and 4
consecutive errors give exactly 4 attempts (with sleeps 1, 2, 4 s) before
the task gives up. -/
theorem claim_C7_submission_retry (resp : Nat → ClResp) :
    (∀ j m, j ≤ PROOF_SUBMISSION_MAX_RETRIES →
      (∀ i, i < j → ∃ mi, resp i = .err mi ∧
        str_contains mi "already known" = false) →
      resp j = .err m → str_contains m "already known" = true →
      submit_proof resp =
        { attempts := j + 1, sleeps := (List.range j).map (2 ^ ·),
          outcome := .alreadyKnown }) ∧
    (∀ j, j ≤ PROOF_SUBMISSION_MAX_RETRIES →
      (∀ i, i < j → ∃ mi, resp i = .err mi ∧
        str_contains mi "already known" = false) →
      resp j = .ok →
      submit_proof resp =
        { attempts := j + 1, sleeps := (List.range j).map (2 ^ ·),
          outcome := .submitted }) ∧
    ((∀ i, i ≤ PROOF_SUBMISSION_MAX_RETRIES → ∃ mi, resp i = .err mi ∧
        str_contains mi "already known" = false) →
      submit_proof resp =
        { attempts := 4, sleeps := [1, 2, 4],
          outcome := .maxRetriesExceeded }) := by
  have hrange : List.range (PROOF_SUBMISSION_MAX_RETRIES + 1) = [0, 1, 2, 3] :=
    rfl
  refine ⟨?_, ?_, ?_⟩
  · intro j m hj hpre hr hak
    simp only [PROOF_SUBMISSION_MAX_RETRIES] at hj
    interval_cases j
    · simp [submit_proof, hrange, submit_go, hr, hak]
    · obtain ⟨m0, h0, hc0⟩ := hpre 0 (by omega)
      simp [submit_proof, hrange, submit_go, h0, hc0, hr, hak,
        PROOF_SUBMISSION_MAX_RETRIES] <;> decide
    · obtain ⟨m0, h0, hc0⟩ := hpre 0 (by omega)
      obtain ⟨m1, h1, hc1⟩ := hpre 1 (by omega)
      simp [submit_proof, hrange, submit_go, h0, hc0, h1, hc1, hr, hak,
        PROOF_SUBMISSION_MAX_RETRIES] <;> decide
    · obtain ⟨m0, h0, hc0⟩ := hpre 0 (by omega)
      obtain ⟨m1, h1, hc1⟩ := hpre 1 (by omega)
      obtain ⟨m2, h2, hc2⟩ := hpre 2 (by omega)
      simp [submit_proof, hrange, submit_go, h0, hc0, h1, hc1, h2, hc2,
        hr, hak, PROOF_SUBMISSION_MAX_RETRIES] <;> decide
  · intro j hj hpre hr
    simp only [PROOF_SUBMISSION_MAX_RETRIES] at hj
    interval_cases j
    · simp [submit_proof, hrange, submit_go, hr]
    · obtain ⟨m0, h0, hc0⟩ := hpre 0 (by omega)
      simp [submit_proof, hrange, submit_go, h0, hc0, hr,
        PROOF_SUBMISSION_MAX_RETRIES] <;> decide
    · obtain ⟨m0, h0, hc0⟩ := hpre 0 (by omega)
      obtain ⟨m1, h1, hc1⟩ := hpre 1 (by omega)
      simp [submit_proof, hrange, submit_go, h0, hc0, h1, hc1, hr,
        PROOF_SUBMISSION_MAX_RETRIES] <;> decide
    · obtain ⟨m0, h0, hc0⟩ := hpre 0 (by omega)
      obtain ⟨m1, h1, hc1⟩ := hpre 1 (by omega)
      obtain ⟨m2, h2, hc2⟩ := hpre 2 (by omega)
      simp [submit_proof, hrange, submit_go, h0, hc0, h1, hc1, h2, hc2,
        hr, PROOF_SUBMISSION_MAX_RETRIES] <;> decide
  · intro hall
    obtain ⟨m0, h0, hc0⟩ := hall 0 (by simp [PROOF_SUBMISSION_MAX_RETRIES])
    obtain ⟨m1, h1, hc1⟩ := hall 1 (by simp [PROOF_SUBMISSION_MAX_RETRIES])
    obtain ⟨m2, h2, hc2⟩ := hall 2 (by simp [PROOF_SUBMISSION_MAX_RETRIES])
    obtain ⟨m3, h3, hc3⟩ := hall 3 (by simp [PROOF_SUBMISSION_MAX_RETRIES])
    simp [submit_proof, hrange, submit_go, h0, hc0, h1, hc1, h2, hc2, h3,
      hc3, PROOF_SUBMISSION_MAX_RETRIES]

/-- CL responses for the C7 witness: two transient errors, then success. -/
def respC7 (i : Nat) : ClResp := if i < 2 then ClResp.err "boom" else ClResp.ok

/-- Witness for C7: with errors at attempts 0 and 1 and success at attempt
2, exactly 3 attempts are made, with backoff sleeps of 1 s and 2 s. -/
theorem claim_C7_submission_retry_witness :
    (2 ≤ PROOF_SUBMISSION_MAX_RETRIES ∧ respC7 2 = .ok) ∧
    submit_proof respC7 =
      { attempts := 2 + 1, sleeps := (List.range 2).map (2 ^ ·),
        outcome := .submitted } :=
  ⟨⟨by decide, by decide⟩,
    (claim_C7_submission_retry respC7).2.1 2 (by decide)
      (fun i hi => ⟨"boom", by
        have hcase : i = 0 ∨ i = 1 := by omega
        rcases hcase with rfl | rfl <;> exact ⟨by decide, by decide⟩⟩)
      (by decide)⟩

/-- The fields of a `ProofServiceMessage::RequestProof` emitted by the
backfill loop (backfill.rs lines 270-278). -/
structure RequestProofMsg where
  slot : Nat
  block_root : Nat
  execution_block_hash : Nat
  target_clients : Target String
  target_proof_types : Target Nat
deriving DecidableEq

/-- Result of `source_cl_client.get_block_info(slot)` as the backfill loop
distinguishes it: a block (with root and optional execution-payload hash),
an empty slot (`Ok(None)`), or a fetch error — the last two are skipped
identically (`continue`). -/
inductive BlockInfoRes where
  | found : Nat → Option Nat → BlockInfoRes
  | emptySlot : BlockInfoRes
  | fetchFailed : BlockInfoRes
deriving DecidableEq

/-- `BackfillService::backfill_proofs` (backfill.rs lines 207-283),
restricted to the `RequestProof` messages it sends: return early unless
`zkvm_head < source_head`; iterate slots `(zkvm_head + 1)..=(zkvm_head +
min(gap, max_slots))`, skipping slots without block info or without an
execution payload; each message targets `Specific({client name})` and all
proof types. (The `FetchData` messages it may also send are not relevant to
the claims.) -/
def backfill_proofs (get_info : Nat → BlockInfoRes) (name : String)
    (zkvm_head source_head max_slots : Nat) : List RequestProofMsg :=
  if source_head ≤ zkvm_head then []
  else
    let gap := source_head - zkvm_head
    let slots_to_check := min gap max_slots
    ((List.range slots_to_check).map (fun i => zkvm_head + 1 + i)).filterMap
      (fun slot =>
        match get_info slot with
        | .found block_root (some block_hash) =>
          some { slot := slot, block_root := block_root,
                 execution_block_hash := block_hash,
                 target_clients := Target.specific {name},
                 target_proof_types := Target.all }
        | .found _ none => none
        | .emptySlot => none
        | .fetchFailed => none)

/-- One tick of `BackfillService::run` for a single zk-enabled CL
(backfill.rs lines 129-161): backfill runs only when the status gap
`zkvm_head − source_head` (signed) is below −5, with `max_slots = 20`;
within one sequential tick the re-fetched head slots equal the status
ones. -/
def backfill_tick (get_info : Nat → BlockInfoRes) (name : String)
    (zkvm_head source_head : Nat) : List RequestProofMsg :=
  if (zkvm_head : Int) - (source_head : Int) < -5 then
    backfill_proofs get_info name zkvm_head source_head 20
  else []

theorem filterMap_map_sublist {α β : Type} (f : α → Option β) (g : β → α)
    (hf : ∀ a m, f a = some m → g m = a) :
    ∀ l : List α, ((l.filterMap f).map g).Sublist l := by
  intro l
  induction l with
  | nil => simp
  | cons a t ih =>
    cases hfa : f a with
    | none =>
      rw [List.filterMap_cons, hfa]
      exact ih.cons a
    | some m =>
      rw [List.filterMap_cons, hfa, List.map_cons, hf a m hfa]
      exact ih.cons₂ a

/-- C8: when a zk-enabled CL's gap `zkvm_head − source_head` is below −5,
the backfill tick emits exactly one `RequestProof` per slot in
`(zkvm_head, zkvm_head + min(|gap|, 20)]` whose block info is present and
has an execution payload, each targeting only that client
(`Specific({name})`) and all proof types. -/
theorem claim_C8_backfill_window (get_info : Nat → BlockInfoRes)
    (name : String) (zkvm_head source_head : Nat)
    (hgap : (zkvm_head : Int) - (source_head : Int) < -5) :
    (∀ msg ∈ backfill_tick get_info name zkvm_head source_head,
      msg.target_clients = Target.specific {name} ∧
      msg.target_proof_types = Target.all ∧
      get_info msg.slot =
        .found msg.block_root (some msg.execution_block_hash)) ∧
    (∀ s, (∃ msg ∈ backfill_tick get_info name zkvm_head source_head,
        msg.slot = s) ↔
      (zkvm_head < s ∧
        s ≤ zkvm_head + min (source_head - zkvm_head) 20 ∧
        ∃ br hsh, get_info s = .found br (some hsh))) ∧
    ((backfill_tick get_info name zkvm_head source_head).map
        RequestProofMsg.slot).Nodup := by
  have hne : ¬ source_head ≤ zkvm_head := by omega
  refine ⟨?_, ?_, ?_⟩
  · intro msg hmsg
    simp only [backfill_tick, if_pos hgap, backfill_proofs,
      if_neg hne] at hmsg
    rw [List.mem_filterMap] at hmsg
    obtain ⟨a, _, hfa⟩ := hmsg
    cases hinfo : get_info a with
    | found br ohash =>
      cases ohash with
      | some hsh =>
        rw [hinfo] at hfa
        injection hfa with h
        subst h
        exact ⟨rfl, rfl, hinfo⟩
      | none =>
        rw [hinfo] at hfa
        cases hfa
    | emptySlot =>
      rw [hinfo] at hfa
      cases hfa
    | fetchFailed =>
      rw [hinfo] at hfa
      cases hfa
  · intro s
    constructor
    · rintro ⟨msg, hmsg, rfl⟩
      simp only [backfill_tick, if_pos hgap, backfill_proofs,
        if_neg hne] at hmsg
      rw [List.mem_filterMap] at hmsg
      obtain ⟨a, ha, hfa⟩ := hmsg
      rw [List.mem_map] at ha
      obtain ⟨i, hi, hia⟩ := ha
      rw [List.mem_range] at hi
      cases hinfo : get_info a with
      | found br ohash =>
        cases ohash with
        | some hsh =>
          rw [hinfo] at hfa
          injection hfa with h
          subst h
          exact ⟨by dsimp only; omega, by dsimp only; omega, br, hsh, hinfo⟩
        | none =>
          rw [hinfo] at hfa
          cases hfa
      | emptySlot =>
        rw [hinfo] at hfa
        cases hfa
      | fetchFailed =>
        rw [hinfo] at hfa
        cases hfa
    · rintro ⟨hlow, hhigh, br, hsh, hinfo⟩
      refine ⟨{ slot := s, block_root := br, execution_block_hash := hsh,
                target_clients := Target.specific {name},
                target_proof_types := Target.all }, ?_, rfl⟩
      simp only [backfill_tick, if_pos hgap, backfill_proofs, if_neg hne]
      rw [List.mem_filterMap]
      refine ⟨s, ?_, by rw [hinfo]⟩
      rw [List.mem_map]
      refine ⟨s - zkvm_head - 1, ?_, by omega⟩
      rw [List.mem_range]
      omega
  · simp only [backfill_tick, if_pos hgap, backfill_proofs, if_neg hne]
    refine List.Nodup.sublist
      (filterMap_map_sublist _ RequestProofMsg.slot ?_ _) ?_
    · intro a m hm
      cases hinfo : get_info a with
      | found br ohash =>
        cases ohash with
        | some hsh =>
          rw [hinfo] at hm
          injection hm with h
          subst h
          rfl
        | none =>
          rw [hinfo] at hm
          cases hm
      | emptySlot =>
        rw [hinfo] at hm
        cases hm
      | fetchFailed =>
        rw [hinfo] at hm
        cases hm
    · exact List.Nodup.map (fun i j hij => by omega) (List.nodup_range _)

/-- Block-info oracle for the C8 witness: every slot has a block with an
execution payload. -/
def infoC8 (s : Nat) : BlockInfoRes := BlockInfoRes.found (s + 200) (some (s + 1000))

/-- Witness for C8 at the spec's backfill scenario: source head 120, zk head
110 — ten per-slot requests for slots 111..120, targeting only `zk1`. -/
theorem claim_C8_backfill_window_witness :
    ((110 : Int) - (120 : Int) < -5 ∧
      (backfill_tick infoC8 "zk1" 110 120).map RequestProofMsg.slot =
        [111, 112, 113, 114, 115, 116, 117, 118, 119, 120]) ∧
    (∀ msg ∈ backfill_tick infoC8 "zk1" 110 120,
      msg.target_clients = Target.specific {"zk1"} ∧
      msg.target_proof_types = Target.all ∧
      infoC8 msg.slot =
        .found msg.block_root (some msg.execution_block_hash)) ∧
    (∀ s, (∃ msg ∈ backfill_tick infoC8 "zk1" 110 120, msg.slot = s) ↔
      (110 < s ∧ s ≤ 110 + min (120 - 110) 20 ∧
        ∃ br hsh, infoC8 s = .found br (some hsh))) ∧
    ((backfill_tick infoC8 "zk1" 110 120).map RequestProofMsg.slot).Nodup :=
  ⟨⟨by decide, by decide⟩,
    claim_C8_backfill_window infoC8 "zk1" 110 120 (by decide)⟩

/-- Atomic events of `request_proof`'s success-path critical section
(proof.rs lines 488-532): lock acquisitions and releases of the two mutexes
and the two map inserts. -/
inductive LockEv where
  | lockPending : LockEv
  | unlockPending : LockEv
  | lockGenIds : LockEv
  | unlockGenIds : LockEv
  | insertPending : (Nat × Nat) → PendingProof → LockEv
  | insertGenId : Nat → (Nat × Nat) → LockEv
deriving DecidableEq

/-- The two maps together with which of their locks the writer holds. -/
structure LockState where
  pendingHeld : Bool
  genIdsHeld : Bool
  pending_proofs : List ((Nat × Nat) × PendingProof)
  proof_gen_ids : List (Nat × (Nat × Nat))
deriving DecidableEq

/-- Effect of one critical-section event. -/
def lock_step (s : LockState) : LockEv → LockState
  | .lockPending => { s with pendingHeld := true }
  | .unlockPending => { s with pendingHeld := false }
  | .lockGenIds => { s with genIdsHeld := true }
  | .unlockGenIds => { s with genIdsHeld := false }
  | .insertPending key pp =>
    { s with pending_proofs := ainsert key pp s.pending_proofs }
  | .insertGenId gid key =>
    { s with proof_gen_ids := ainsert gid key s.proof_gen_ids }

/-- The event order of `request_proof`'s success path, exactly as the
source performs it: lock `pending_proofs` (line 488), lock `proof_gen_ids`
(line 489), insert the fresh `PendingProof` (line 528), `drop` the
`pending_proofs` guard (line 529), insert the gen-id mapping (line 531),
`drop` the `proof_gen_ids` guard (line 532). -/
def request_proof_critical (key : Nat × Nat) (pp : PendingProof)
    (gid : Nat) : List LockEv :=
  [LockEv.lockPending, LockEv.lockGenIds, LockEv.insertPending key pp,
   LockEv.unlockPending, LockEv.insertGenId gid key, LockEv.unlockGenIds]

/-- All states along a trace; `(lock_states s0 evs).get? i` is the state in
which event `i` executes. -/
def lock_states (s0 : LockState) (evs : List LockEv) : List LockState :=
  evs.scanl lock_step s0

/-- Fresh `PendingProof` used by the C1 theorems. -/
def ppC1 : PendingProof :=
  { proof_type := 2, slot := 5, block_hash := 1, beacon_block_root := 9,
    target_clients := Target.all, created_at := 0, proof_gen_id := 7 }

/-- Critical section entered with both locks free and both maps empty. -/
def lockS0 : LockState :=
  { pendingHeld := false, genIdsHeld := false, pending_proofs := [],
    proof_gen_ids := [] }

/-- C1 counterexample: the two inserts are not performed with both locks
held to the end — event 4 is the `proof_gen_ids` insert, and in the state
where it executes the `pending_proofs` lock has already been released
(proof.rs line 529 drops it before line 531 inserts). -/
theorem claim_C1_counterexample :
    (request_proof_critical (1, 2) ppC1 7).get? 4 =
      some (LockEv.insertGenId 7 (1, 2)) ∧
    ((lock_states lockS0 (request_proof_critical (1, 2) ppC1 7)).get? 4).map
        LockState.pendingHeld = some false := by
  decide

/-- C1 (amended): in `request_proof`'s success path the `pending_proofs`
lock is released right after its insert, before the `proof_gen_ids` insert;
but the `proof_gen_ids` lock is held from before the first insert until
after the second, so at every point of the critical section at which the
writer holds neither lock, the fresh `PendingProof` is reachable through
both of its keys or through neither — the two indices agree at every
observable point. -/
theorem claim_C1_insert_sync (key : Nat × Nat) (pp : PendingProof)
    (gid : Nat) (s0 : LockState)
    (hfree1 : s0.pendingHeld = false) (hfree2 : s0.genIdsHeld = false)
    (habs1 : alookup key s0.pending_proofs = none)
    (habs2 : alookup gid s0.proof_gen_ids = none) :
    ∀ st ∈ lock_states s0 (request_proof_critical key pp gid),
      st.pendingHeld = false → st.genIdsHeld = false →
      ((alookup key st.pending_proofs = some pp ∧
        alookup gid st.proof_gen_ids = some key) ∨
       (alookup key st.pending_proofs = none ∧
        alookup gid st.proof_gen_ids = none)) := by
  intro st hst
  simp only [lock_states, request_proof_critical, List.scanl,
    lock_step] at hst
  simp only [List.mem_cons, List.not_mem_nil, or_false] at hst
  rcases hst with rfl | rfl | rfl | rfl | rfl | rfl | rfl
  · intro _ _
    exact Or.inr ⟨habs1, habs2⟩
  · intro hp _
    simp at hp
  · intro hp _
    simp at hp
  · intro hp _
    simp at hp
  · intro _ hg
    simp at hg
  · intro _ hg
    simp at hg
  · intro _ _
    exact Or.inl ⟨alookup_ainsert key pp s0.pending_proofs,
      alookup_ainsert gid key s0.proof_gen_ids⟩

/-- Witness for the amended C1 theorem at a concrete critical section. -/
theorem claim_C1_insert_sync_witness :
    (lockS0.pendingHeld = false ∧ lockS0.genIdsHeld = false ∧
      alookup ((1 : Nat), (2 : Nat)) lockS0.pending_proofs = none ∧
      alookup (7 : Nat) lockS0.proof_gen_ids = none) ∧
    ∀ st ∈ lock_states lockS0 (request_proof_critical (1, 2) ppC1 7),
      st.pendingHeld = false → st.genIdsHeld = false →
      ((alookup (1, 2) st.pending_proofs = some ppC1 ∧
        alookup 7 st.proof_gen_ids = some (1, 2)) ∨
       (alookup (1, 2) st.pending_proofs = none ∧
        alookup 7 st.proof_gen_ids = none)) :=
  ⟨⟨by decide, by decide, by decide, by decide⟩,
    claim_C1_insert_sync (1, 2) ppC1 7 lockS0 (by decide) (by decide)
      (by decide) (by decide)⟩

/-- C9: `Target.union` is commutative, `All` absorbs on the left, and
`Specific(∅)` is not collapsed to `All`: it contains nothing and is a left
identity for `union` on `Specific` sets. -/
theorem claim_C9_target_union_algebra (α : Type) [DecidableEq α] :
    (∀ a b : Target α, a.union b = b.union a) ∧
    (∀ x : Target α, Target.all.union x = Target.all) ∧
    (∀ v : α, (Target.specific (∅ : Finset α)).contains v = false) ∧
    (∀ s : Finset α,
      (Target.specific (∅ : Finset α)).union (Target.specific s) =
        Target.specific s) := by
  refine ⟨?_, ?_, ?_, ?_⟩
  · intro a b
    cases a <;> cases b <;> simp [Target.union, Finset.union_comm]
  · intro x
    cases x <;> rfl
  · intro v
    simp [Target.contains]
  · intro s
    simp [Target.union]

end Sentry
